import Mathlib

/-!
Verification of the mscclpp `DeviceSyncer` grid-wide barrier
(`include/mscclpp/concurrency_device.hpp`) and the GPU allocation helpers
(`include/mscclpp/gpu_utils.hpp`), against their natural-language
specification.

The barrier is embedded as a small-step state machine over the shared
fields of the `DeviceSyncer` object (`flag_`, `count_`, `isIncFlag_`) with
one "coordinator" per participating block (thread 0 of the block, the only
thread that touches shared state; the two `__syncthreads()` intra-block
barriers are abstracted away, since the claims are stated at block
granularity).  Memory visibility is rendered at the sequentially
consistent level: the `__threadfence()` a coordinator issues before
arriving publishes all writes its block issued before `sync`, which we
record in the program counter (a coordinator past `PC.fence` has published
its block's pre-sync writes).  A failed poll of `flag_` does not change
any state, so the spin-wait is modelled as a step that is enabled exactly
when the polled condition holds; the spin-count bound of
`POLL_MAYBE_JAILBREAK` is modelled separately (`pollMaybeJailbreak`).
-/

namespace Mscclpp

/-- Program counter of a block's coordinator thread inside
`DeviceSyncer::sync(blockNum, maxSpinCount)`:

* `entry`     — about to execute `if (blockNum == 1) return;`
  (after the first `__syncthreads()`);
* `fence`     — about to execute `__threadfence()`;
* `readSense` — about to execute `int tmp = isIncFlag_ ^ 1;`;
* `inc`       — about to execute `atomicInc(&count_, maxOldCnt)`;
* `setFlag`   — its `atomicInc` returned `maxOldCnt`, about to write `flag_`;
* `spin`      — polling `flag_` (`POLL_MAYBE_JAILBREAK`);
* `writeSense`— about to execute `isIncFlag_ = tmp;`;
* `done`      — returned from `sync`. -/
inductive PC
  | entry
  | fence
  | readSense
  | inc
  | setFlag
  | spin
  | writeSense
  | done
deriving DecidableEq, Repr

/-- Local state of one block's coordinator: its program counter, the local
`tmp` computed from `isIncFlag_`, and a ghost bit recording whether its
`atomicInc` returned `maxOldCnt` (i.e. whether it is the releaser). -/
structure Coord where
  pc : PC
  tmp : Nat
  isRel : Bool
deriving DecidableEq, Repr

/-- Global state of one `sync` round with `N` participating blocks: the
shared `DeviceSyncer` fields `count_`, `flag_`, `isIncFlag_`, a ghost list
of the coordinators that wrote `flag_` this round (in write order), and
the per-coordinator local states. -/
structure SyncState (N : Nat) where
  count : Nat
  flag : Nat
  isIncFlag : Nat
  flagWriters : List (Fin N)
  coords : Fin N → Coord

/-- One atomic step of coordinator `i`, following the source of
`DeviceSyncer::sync` line by line.  `none` means no state-changing step is
enabled (the coordinator is `done`, or is spinning on a `flag_` value that
has not flipped yet — re-polling leaves the state unchanged).

The source branches on `tmp` first (`if (tmp) ... else ...`); both
branches perform the same `atomicInc(&count_, maxOldCnt)` with
`maxOldCnt = blockNum - 1` and differ only in the value stored to `flag_`
(`1` vs `0`) and in the polled condition (`!flag_` vs `flag_`), which is
what the `tmp`-dependent values below encode.  `atomicInc(p, m)` returns
the old value `old` and stores `old >= m ? 0 : old + 1`. -/
def stepCoord {N : Nat} (st : SyncState N) (i : Fin N) : Option (SyncState N) :=
  let c := st.coords i
  match c.pc with
  | .entry =>
      -- if (blockNum == 1) return;
      if N = 1 then
        some { st with coords := Function.update st.coords i { c with pc := .done } }
      else
        some { st with coords := Function.update st.coords i { c with pc := .fence } }
  | .fence =>
      -- __threadfence();  (publishes this block's pre-sync writes)
      some { st with coords := Function.update st.coords i { c with pc := .readSense } }
  | .readSense =>
      -- int tmp = isIncFlag_ ^ 1;
      some { st with coords :=
        Function.update st.coords i { c with pc := .inc, tmp := st.isIncFlag ^^^ 1 } }
  | .inc =>
      -- atomicInc(&count_, maxOldCnt) == maxOldCnt ?
      let old := st.count
      let newCount := if old ≥ N - 1 then 0 else old + 1
      if old = N - 1 then
        some { st with count := newCount,
                       coords := Function.update st.coords i
                         { c with pc := .setFlag, isRel := true } }
      else
        some { st with count := newCount,
                       coords := Function.update st.coords i { c with pc := .spin } }
  | .setFlag =>
      -- flag_ = 1;  (in the tmp branch)  /  flag_ = 0;  (in the other)
      some { st with flag := if c.tmp ≠ 0 then 1 else 0,
                     flagWriters := st.flagWriters ++ [i],
                     coords := Function.update st.coords i { c with pc := .spin } }
  | .spin =>
      -- POLL_MAYBE_JAILBREAK(!flag_, ...)  /  POLL_MAYBE_JAILBREAK(flag_, ...)
      if (if c.tmp ≠ 0 then st.flag ≠ 0 else st.flag = 0) then
        some { st with coords := Function.update st.coords i { c with pc := .writeSense } }
      else none
  | .writeSense =>
      -- isIncFlag_ = tmp;
      some { st with isIncFlag := c.tmp,
                     coords := Function.update st.coords i { c with pc := .done } }
  | .done => none

/-- Initial state of a `sync` call by `N` blocks on a `DeviceSyncer` whose
shared fields currently hold `count`, `flag`, `isIncFlag`. -/
def initState (N count flag isIncFlag : Nat) : SyncState N :=
  { count := count, flag := flag, isIncFlag := isIncFlag, flagWriters := [],
    coords := fun _ => { pc := .entry, tmp := 0, isRel := false } }

/-- Start of a round whose sense is `s`: `count_ = 0` and
`flag_ = isIncFlag_ = s`.  The first round on zero-initialized memory is
`roundInit N 0`. -/
def roundInit (N s : Nat) : SyncState N := initState N 0 s s

/-- States reachable from `st0` by interleaving coordinator steps in any
order (the GPU scheduler chooses the interleaving). -/
inductive Reach {N : Nat} (st0 : SyncState N) : SyncState N → Prop
  | refl : Reach st0 st0
  | step {st st' : SyncState N} (i : Fin N) :
      Reach st0 st → stepCoord st i = some st' → Reach st0 st'

/-- No coordinator has an enabled state-changing step. -/
def Terminal {N : Nat} (st : SyncState N) : Prop :=
  ∀ i : Fin N, stepCoord st i = none

/-- The coordinator has executed its `__threadfence()`: all writes its
block issued before calling `sync` are visible to every other block. -/
def pastFence : PC → Bool
  | .entry | .fence => false
  | _ => true

/-- The coordinator has read `isIncFlag_` into `tmp`. -/
def pastRead : PC → Bool
  | .entry | .fence | .readSense => false
  | _ => true

/-- The coordinator has performed its `atomicInc` (it has arrived). -/
def pastInc : PC → Bool
  | .entry | .fence | .readSense | .inc => false
  | _ => true

/-- Number of coordinators that have performed their `atomicInc`. -/
def arrivedCount {N : Nat} (st : SyncState N) : Nat :=
  (Finset.univ.filter fun i => pastInc (st.coords i).pc = true).card

/-- Number of coordinators whose `atomicInc` returned `maxOldCnt`. -/
def relCount {N : Nat} (st : SyncState N) : Nat :=
  (Finset.univ.filter fun i => (st.coords i).isRel = true).card

/-- This coordinator is the releaser and has written `flag_`
(it is past `PC.setFlag`). -/
def relPast (c : Coord) : Prop :=
  c.isRel = true ∧ (c.pc = .spin ∨ c.pc = .writeSense ∨ c.pc = .done)

/-- The releaser has written `flag_` this round. -/
def Released {N : Nat} (st : SyncState N) : Prop :=
  ∃ i, relPast (st.coords i)

/-- The coordinator has returned from `sync`. -/
def isDone (c : Coord) : Prop := c.pc = .done

/-- Some coordinator has returned from `sync`. -/
def SomeDone {N : Nat} (st : SyncState N) : Prop :=
  ∃ i, isDone (st.coords i)

lemma exists_update_iff {N : Nat} (f : Fin N → Coord) (i : Fin N) (c' : Coord)
    (P : Coord → Prop) :
    (∃ j, P (Function.update f i c' j)) ↔ (P c' ∨ ∃ j, j ≠ i ∧ P (f j)) := by
  constructor
  · rintro ⟨j, hj⟩
    by_cases h : j = i
    · subst h; rw [Function.update_same] at hj; exact Or.inl hj
    · rw [Function.update_noteq h] at hj; exact Or.inr ⟨j, h, hj⟩
  · rintro (h | ⟨j, hji, hj⟩)
    · exact ⟨i, by rw [Function.update_same]; exact h⟩
    · exact ⟨j, by rw [Function.update_noteq hji]; exact hj⟩

lemma exists_split {N : Nat} (Q : Fin N → Prop) (i : Fin N) :
    (∃ j, Q j) ↔ (Q i ∨ ∃ j, j ≠ i ∧ Q j) := by
  constructor
  · rintro ⟨j, hj⟩
    by_cases h : j = i
    · subst h; exact Or.inl hj
    · exact Or.inr ⟨j, h, hj⟩
  · rintro (h | ⟨j, _, hj⟩)
    · exact ⟨i, h⟩
    · exact ⟨j, hj⟩

lemma card_filter_update_same {N : Nat} (f : Fin N → Coord) (i : Fin N) (c' : Coord)
    (p : Coord → Bool) (h : p c' = p (f i)) :
    (Finset.univ.filter fun j => p (Function.update f i c' j) = true).card
      = (Finset.univ.filter fun j => p (f j) = true).card := by
  congr 1
  ext j
  simp only [Finset.mem_filter, Finset.mem_univ, true_and, Function.update_apply]
  by_cases hj : j = i
  · subst hj; simp [h]
  · simp [hj]

lemma card_filter_update_flip {N : Nat} (f : Fin N → Coord) (i : Fin N) (c' : Coord)
    (p : Coord → Bool) (hOld : p (f i) = false) (hNew : p c' = true) :
    (Finset.univ.filter fun j => p (Function.update f i c' j) = true).card
      = (Finset.univ.filter fun j => p (f j) = true).card + 1 := by
  have hins : (Finset.univ.filter fun j => p (Function.update f i c' j) = true)
      = insert i (Finset.univ.filter fun j => p (f j) = true) := by
    ext j
    simp only [Finset.mem_filter, Finset.mem_univ, true_and, Finset.mem_insert,
      Function.update_apply]
    by_cases hj : j = i
    · subst hj; simp [hNew]
    · simp [hj]
  rw [hins, Finset.card_insert_of_not_mem]
  simp [hOld]

lemma arrivedCount_lt {N : Nat} (st : SyncState N) (i : Fin N)
    (h : pastInc (st.coords i).pc = false) : arrivedCount st < N := by
  have hsub : (Finset.univ.filter fun j => pastInc (st.coords j).pc = true)
      ⊂ Finset.univ := by
    rw [Finset.ssubset_univ_iff]
    intro hEq
    have hi : i ∈ Finset.univ.filter fun j => pastInc (st.coords j).pc = true := by
      rw [hEq]; exact Finset.mem_univ i
    rw [Finset.mem_filter] at hi
    rw [h] at hi
    exact absurd hi.2 (by simp)
  have := Finset.card_lt_card hsub
  simpa [arrivedCount] using this

lemma arrived_all {N : Nat} (st : SyncState N) (h : arrivedCount st = N) :
    ∀ j, pastInc (st.coords j).pc = true := by
  have huniv : (Finset.univ.filter fun j => pastInc (st.coords j).pc = true)
      = Finset.univ := by
    apply Finset.eq_univ_of_card
    rw [← arrivedCount, h, Fintype.card_fin]
  intro j
  have hj : j ∈ Finset.univ.filter fun k => pastInc (st.coords k).pc = true := by
    rw [huniv]; exact Finset.mem_univ j
  rw [Finset.mem_filter] at hj
  exact hj.2

lemma relCount_pos {N : Nat} (st : SyncState N) (i : Fin N)
    (h : (st.coords i).isRel = true) : 1 ≤ relCount st := by
  have hi : i ∈ Finset.univ.filter fun j => (st.coords j).isRel = true := by
    rw [Finset.mem_filter]; exact ⟨Finset.mem_univ i, h⟩
  exact Finset.card_pos.mpr ⟨i, hi⟩

lemma relCount_two {N : Nat} (st : SyncState N) (i j : Fin N) (hij : i ≠ j)
    (hi : (st.coords i).isRel = true) (hj : (st.coords j).isRel = true) :
    2 ≤ relCount st := by
  have hsub : ({i, j} : Finset (Fin N))
      ⊆ Finset.univ.filter fun k => (st.coords k).isRel = true := by
    intro k hk
    rw [Finset.mem_insert, Finset.mem_singleton] at hk
    rw [Finset.mem_filter]
    rcases hk with h | h <;> subst h
    · exact ⟨Finset.mem_univ _, hi⟩
    · exact ⟨Finset.mem_univ _, hj⟩
  have := Finset.card_le_card hsub
  rwa [Finset.card_pair hij] at this

/-- The inductive invariant of one barrier round started from `roundInit N s`
with `2 ≤ N` and `s ≤ 1`.  `s` is the round's sense (the shared values of
`flag_` and `isIncFlag_` at round start); `s ^^^ 1` is the round's target
flag value. -/
structure Inv (N s : Nat) (st : SyncState N) : Prop where
  tmp_eq : ∀ i, pastRead (st.coords i).pc = true → (st.coords i).tmp = s ^^^ 1
  count_eq : st.count = if arrivedCount st = N then 0 else arrivedCount st
  rel_arrived : ∀ i, (st.coords i).isRel = true → pastInc (st.coords i).pc = true
  relCard : relCount st = if arrivedCount st = N then 1 else 0
  setFlag_rel : ∀ i, (st.coords i).pc = .setFlag → (st.coords i).isRel = true
  flag_rel : Released st → st.flag = s ^^^ 1
  flag_notRel : ¬ Released st → st.flag = s
  writers_rel : Released st → ∃ r, st.flagWriters = [r] ∧ (st.coords r).isRel = true
  writers_notRel : ¬ Released st → st.flagWriters = []
  sense_done : SomeDone st → st.isIncFlag = s ^^^ 1
  sense_notDone : ¬ SomeDone st → st.isIncFlag = s
  pastSpin_rel : ∀ i, ((st.coords i).pc = .writeSense ∨ (st.coords i).pc = .done) →
    Released st

lemma released_arrived {N s : Nat} {st : SyncState N} (hinv : Inv N s st)
    (h : Released st) : arrivedCount st = N := by
  obtain ⟨r, hrel, _⟩ := h
  by_contra hne
  have h1 := relCount_pos st r hrel
  rw [hinv.relCard, if_neg hne] at h1
  omega

lemma not_done_of_not_arrived {N s : Nat} {st : SyncState N} (hinv : Inv N s st)
    (i : Fin N) (h : pastInc (st.coords i).pc = false) : ¬ SomeDone st := by
  rintro ⟨j, hj⟩
  have hr : Released st := hinv.pastSpin_rel j (Or.inr hj)
  have hA := released_arrived hinv hr
  have := arrived_all st hA i
  rw [h] at this
  exact absurd this (by simp)

lemma inv_init (N s : Nat) (hN : 2 ≤ N) : Inv N s (roundInit N s) := by
  have harr : arrivedCount (roundInit N s) = 0 := by
    simp [arrivedCount, roundInit, initState, pastInc]
  have hrel : relCount (roundInit N s) = 0 := by
    simp [relCount, roundInit, initState]
  have hnotRel : ¬ Released (roundInit N s) := by
    rintro ⟨j, hj, _⟩
    simp [roundInit, initState] at hj
  refine ⟨?_, ?_, ?_, ?_, ?_, ?_, ?_, ?_, ?_, ?_, ?_, ?_⟩
  · intro i h
    simp [roundInit, initState, pastRead] at h
  · rw [harr, if_neg (by omega)]
    rfl
  · intro i h
    simp [roundInit, initState] at h
  · rw [harr, hrel, if_neg (by omega)]
  · intro i h
    simp [roundInit, initState] at h
  · intro h
    exact absurd h hnotRel
  · intro _
    rfl
  · intro h
    exact absurd h hnotRel
  · intro _
    rfl
  · rintro ⟨j, hj⟩
    simp [isDone, roundInit, initState] at hj
  · intro _
    rfl
  · intro i h
    rcases h with h | h <;> simp [roundInit, initState] at h

/-- Preservation for a step that only advances the program counter of a
coordinator that has not yet arrived, into a position before `setFlag`
(covers `entry` to `fence` and `fence` to `readSense`). -/
lemma inv_advance_early {N s : Nat} {st st' : SyncState N} (i : Fin N)
    (hinv : Inv N s st) (pNew : PC)
    (hOldInc : pastInc (st.coords i).pc = false)
    (hNewRead : pastRead pNew = false) (hNewInc : pastInc pNew = false)
    (hNewSF : pNew ≠ .setFlag) (hNewWS : pNew ≠ .writeSense) (hNewD : pNew ≠ .done)
    (hcount : st'.count = st.count) (hflag : st'.flag = st.flag)
    (hsense : st'.isIncFlag = st.isIncFlag)
    (hwriters : st'.flagWriters = st.flagWriters)
    (hcoords : st'.coords = Function.update st.coords i
      ⟨pNew, (st.coords i).tmp, (st.coords i).isRel⟩) :
    Inv N s st' := by
  have hrelF : (st.coords i).isRel = false := by
    cases h : (st.coords i).isRel
    · rfl
    · have := hinv.rel_arrived i h
      rw [hOldInc] at this
      exact absurd this (by simp)
  have hA : arrivedCount st' = arrivedCount st := by
    unfold arrivedCount
    rw [hcoords]
    exact card_filter_update_same st.coords i _ (fun c => pastInc c.pc)
      (by show pastInc pNew = pastInc (st.coords i).pc
          rw [hNewInc, hOldInc])
  have hR : relCount st' = relCount st := by
    unfold relCount
    rw [hcoords]
    exact card_filter_update_same st.coords i _ (fun c => c.isRel) rfl
  have hRel : Released st' ↔ Released st := by
    unfold Released
    rw [hcoords, exists_update_iff, exists_split (fun j => relPast (st.coords j)) i]
    have h1 : ¬ relPast (⟨pNew, (st.coords i).tmp, (st.coords i).isRel⟩ : Coord) := by
      simp [relPast, hrelF]
    have h2 : ¬ relPast (st.coords i) := by
      simp [relPast, hrelF]
    tauto
  have hDone : SomeDone st' ↔ SomeDone st := by
    unfold SomeDone
    rw [hcoords, exists_update_iff, exists_split (fun j => isDone (st.coords j)) i]
    have h1 : ¬ isDone (⟨pNew, (st.coords i).tmp, (st.coords i).isRel⟩ : Coord) := by
      simp [isDone]
      exact hNewD
    have h2 : ¬ isDone (st.coords i) := by
      intro h
      unfold isDone at h
      rw [h] at hOldInc
      simp [pastInc] at hOldInc
    tauto
  refine ⟨?_, ?_, ?_, ?_, ?_, ?_, ?_, ?_, ?_, ?_, ?_, ?_⟩
  · intro j h
    rw [hcoords] at h ⊢
    by_cases hj : j = i
    · subst hj
      rw [Function.update_same] at h
      have h' : pastRead pNew = true := h
      rw [hNewRead] at h'
      exact absurd h' (by simp)
    · rw [Function.update_noteq hj] at h ⊢
      exact hinv.tmp_eq j h
  · rw [hcount, hA]
    exact hinv.count_eq
  · intro j h
    rw [hcoords] at h ⊢
    by_cases hj : j = i
    · subst hj
      rw [Function.update_same] at h
      have h' : (st.coords j).isRel = true := h
      rw [hrelF] at h'
      exact absurd h' (by simp)
    · rw [Function.update_noteq hj] at h ⊢
      exact hinv.rel_arrived j h
  · rw [hR, hA]
    exact hinv.relCard
  · intro j h
    rw [hcoords] at h ⊢
    by_cases hj : j = i
    · subst hj
      rw [Function.update_same] at h
      exact absurd h hNewSF
    · rw [Function.update_noteq hj] at h ⊢
      exact hinv.setFlag_rel j h
  · intro h
    rw [hflag]
    exact hinv.flag_rel (hRel.mp h)
  · intro h
    rw [hflag]
    exact hinv.flag_notRel (fun hc => h (hRel.mpr hc))
  · intro h
    rw [hwriters]
    obtain ⟨r, hw, hr⟩ := hinv.writers_rel (hRel.mp h)
    refine ⟨r, hw, ?_⟩
    have hri : r ≠ i := by
      intro he
      rw [he, hrelF] at hr
      exact absurd hr (by simp)
    rw [hcoords, Function.update_noteq hri]
    exact hr
  · intro h
    rw [hwriters]
    exact hinv.writers_notRel (fun hc => h (hRel.mpr hc))
  · intro h
    rw [hsense]
    exact hinv.sense_done (hDone.mp h)
  · intro h
    rw [hsense]
    exact hinv.sense_notDone (fun hc => h (hDone.mpr hc))
  · intro j h
    rw [hcoords] at h
    by_cases hj : j = i
    · subst hj
      rw [Function.update_same] at h
      rcases h with h | h
      · exact absurd h hNewWS
      · exact absurd h hNewD
    · rw [Function.update_noteq hj] at h
      exact hRel.mpr (hinv.pastSpin_rel j h)



/-- Preservation for `int tmp = isIncFlag_ ^ 1;`.  The value read is the
round's sense `s`: no coordinator can have completed the round (and
toggled `isIncFlag_`) while coordinator `i` has not yet arrived. -/
lemma inv_readSense {N s : Nat} {st st' : SyncState N} (i : Fin N)
    (hinv : Inv N s st) (hpc : (st.coords i).pc = .readSense)
    (hcount : st'.count = st.count) (hflag : st'.flag = st.flag)
    (hsense : st'.isIncFlag = st.isIncFlag)
    (hwriters : st'.flagWriters = st.flagWriters)
    (hcoords : st'.coords = Function.update st.coords i
      ⟨.inc, st.isIncFlag ^^^ 1, (st.coords i).isRel⟩) :
    Inv N s st' := by
  have hOldInc : pastInc (st.coords i).pc = false := by
    rw [hpc]
    rfl
  have hrelF : (st.coords i).isRel = false := by
    cases h : (st.coords i).isRel
    · rfl
    · have := hinv.rel_arrived i h
      rw [hOldInc] at this
      exact absurd this (by simp)
  have hNoDone : ¬ SomeDone st := not_done_of_not_arrived hinv i hOldInc
  have hSenseS : st.isIncFlag = s := hinv.sense_notDone hNoDone
  have hA : arrivedCount st' = arrivedCount st := by
    unfold arrivedCount
    rw [hcoords]
    exact card_filter_update_same st.coords i _ (fun c => pastInc c.pc)
      (by show pastInc PC.inc = pastInc (st.coords i).pc
          rw [hpc]
          rfl)
  have hR : relCount st' = relCount st := by
    unfold relCount
    rw [hcoords]
    exact card_filter_update_same st.coords i _ (fun c => c.isRel) rfl
  have hRel : Released st' ↔ Released st := by
    unfold Released
    rw [hcoords, exists_update_iff, exists_split (fun j => relPast (st.coords j)) i]
    have h1 : ¬ relPast (⟨.inc, st.isIncFlag ^^^ 1, (st.coords i).isRel⟩ : Coord) := by
      simp [relPast, hrelF]
    have h2 : ¬ relPast (st.coords i) := by
      simp [relPast, hrelF]
    tauto
  have hDone : SomeDone st' ↔ SomeDone st := by
    unfold SomeDone
    rw [hcoords, exists_update_iff, exists_split (fun j => isDone (st.coords j)) i]
    have h1 : ¬ isDone (⟨.inc, st.isIncFlag ^^^ 1, (st.coords i).isRel⟩ : Coord) := by
      simp [isDone]
    have h2 : ¬ isDone (st.coords i) := by
      intro h
      unfold isDone at h
      rw [h] at hOldInc
      simp [pastInc] at hOldInc
    tauto
  refine ⟨?_, ?_, ?_, ?_, ?_, ?_, ?_, ?_, ?_, ?_, ?_, ?_⟩
  · intro j h
    rw [hcoords] at h ⊢
    by_cases hj : j = i
    · subst hj
      rw [Function.update_same]
      show st.isIncFlag ^^^ 1 = s ^^^ 1
      rw [hSenseS]
    · rw [Function.update_noteq hj] at h ⊢
      exact hinv.tmp_eq j h
  · rw [hcount, hA]
    exact hinv.count_eq
  · intro j h
    rw [hcoords] at h ⊢
    by_cases hj : j = i
    · subst hj
      rw [Function.update_same] at h
      have h' : (st.coords j).isRel = true := h
      rw [hrelF] at h'
      exact absurd h' (by simp)
    · rw [Function.update_noteq hj] at h ⊢
      exact hinv.rel_arrived j h
  · rw [hR, hA]
    exact hinv.relCard
  · intro j h
    rw [hcoords] at h ⊢
    by_cases hj : j = i
    · subst hj
      rw [Function.update_same] at h
      exact absurd h (by simp)
    · rw [Function.update_noteq hj] at h ⊢
      exact hinv.setFlag_rel j h
  · intro h
    rw [hflag]
    exact hinv.flag_rel (hRel.mp h)
  · intro h
    rw [hflag]
    exact hinv.flag_notRel (fun hc => h (hRel.mpr hc))
  · intro h
    rw [hwriters]
    obtain ⟨r, hw, hr⟩ := hinv.writers_rel (hRel.mp h)
    refine ⟨r, hw, ?_⟩
    have hri : r ≠ i := by
      intro he
      rw [he, hrelF] at hr
      exact absurd hr (by simp)
    rw [hcoords, Function.update_noteq hri]
    exact hr
  · intro h
    rw [hwriters]
    exact hinv.writers_notRel (fun hc => h (hRel.mpr hc))
  · intro h
    rw [hsense]
    exact hinv.sense_done (hDone.mp h)
  · intro h
    rw [hsense]
    exact hinv.sense_notDone (fun hc => h (hDone.mpr hc))
  · intro j h
    rw [hcoords] at h
    by_cases hj : j = i
    · subst hj
      rw [Function.update_same] at h
      rcases h with h | h <;> exact absurd h (by simp)
    · rw [Function.update_noteq hj] at h
      exact hRel.mpr (hinv.pastSpin_rel j h)


/-- Preservation for the arrival of the releaser: its
`atomicInc(&count_, blockNum - 1)` returns `blockNum - 1` (i.e. `count_`
held `N - 1`), so the counter wraps to `0` and this coordinator becomes
the unique releaser. -/
lemma inv_inc_rel {N s : Nat} {st st' : SyncState N} (hN : 2 ≤ N) (i : Fin N)
    (hinv : Inv N s st) (hpc : (st.coords i).pc = .inc) (hold : st.count = N - 1)
    (hcount : st'.count = 0) (hflag : st'.flag = st.flag)
    (hsense : st'.isIncFlag = st.isIncFlag)
    (hwriters : st'.flagWriters = st.flagWriters)
    (hcoords : st'.coords = Function.update st.coords i
      ⟨.setFlag, (st.coords i).tmp, true⟩) :
    Inv N s st' := by
  have hOldInc : pastInc (st.coords i).pc = false := by
    rw [hpc]
    rfl
  have hrelF : (st.coords i).isRel = false := by
    cases h : (st.coords i).isRel
    · rfl
    · have := hinv.rel_arrived i h
      rw [hOldInc] at this
      exact absurd this (by simp)
  have hAlt : arrivedCount st < N := arrivedCount_lt st i hOldInc
  have hAeq : st.count = arrivedCount st := by
    rw [hinv.count_eq, if_neg (by omega)]
  have hA : arrivedCount st' = arrivedCount st + 1 := by
    unfold arrivedCount
    rw [hcoords]
    exact card_filter_update_flip st.coords i _ (fun c => pastInc c.pc) hOldInc rfl
  have hAN : arrivedCount st' = N := by omega
  have hRc : relCount st' = relCount st + 1 := by
    unfold relCount
    rw [hcoords]
    exact card_filter_update_flip st.coords i _ (fun c => c.isRel) hrelF rfl
  have hRel0 : relCount st = 0 := by
    rw [hinv.relCard, if_neg (by omega)]
  have hNoRel : ¬ Released st := by
    intro h
    have := released_arrived hinv h
    omega
  have hNoDone : ¬ SomeDone st := not_done_of_not_arrived hinv i hOldInc
  have hNoRel' : ¬ Released st' := by
    unfold Released
    rw [hcoords]
    rw [exists_update_iff]
    rintro (h | ⟨j, _, hj⟩)
    · simp [relPast] at h
    · exact hNoRel ⟨j, hj⟩
  have hNoDone' : ¬ SomeDone st' := by
    unfold SomeDone
    rw [hcoords]
    rw [exists_update_iff]
    rintro (h | ⟨j, _, hj⟩)
    · simp [isDone] at h
    · exact hNoDone ⟨j, hj⟩
  refine ⟨?_, ?_, ?_, ?_, ?_, ?_, ?_, ?_, ?_, ?_, ?_, ?_⟩
  · intro j h
    rw [hcoords] at h ⊢
    by_cases hj : j = i
    · subst hj
      rw [Function.update_same]
      show (st.coords j).tmp = s ^^^ 1
      exact hinv.tmp_eq j (by rw [hpc]; rfl)
    · rw [Function.update_noteq hj] at h ⊢
      exact hinv.tmp_eq j h
  · rw [hcount, hAN]
    simp
  · intro j h
    rw [hcoords] at h ⊢
    by_cases hj : j = i
    · subst hj
      rw [Function.update_same]
      rfl
    · rw [Function.update_noteq hj] at h ⊢
      exact hinv.rel_arrived j h
  · rw [hRc, hRel0, hAN]
    simp
  · intro j h
    rw [hcoords] at h ⊢
    by_cases hj : j = i
    · subst hj
      rw [Function.update_same]
    · rw [Function.update_noteq hj] at h ⊢
      exact hinv.setFlag_rel j h
  · intro h
    exact absurd h hNoRel'
  · intro _
    rw [hflag]
    exact hinv.flag_notRel hNoRel
  · intro h
    exact absurd h hNoRel'
  · intro _
    rw [hwriters]
    exact hinv.writers_notRel hNoRel
  · intro h
    exact absurd h hNoDone'
  · intro _
    rw [hsense]
    exact hinv.sense_notDone hNoDone
  · intro j h
    rw [hcoords] at h
    by_cases hj : j = i
    · subst hj
      rw [Function.update_same] at h
      rcases h with h | h <;> exact absurd h (by simp)
    · rw [Function.update_noteq hj] at h
      exact absurd (hinv.pastSpin_rel j h) hNoRel

/-- Preservation for the arrival of a non-releaser: its `atomicInc`
returns a value below `N - 1`, so the counter advances by one and the
coordinator proceeds to the spin-wait. -/
lemma inv_inc_nonrel {N s : Nat} {st st' : SyncState N} (hN : 2 ≤ N) (i : Fin N)
    (hinv : Inv N s st) (hpc : (st.coords i).pc = .inc) (hold : st.count ≠ N - 1)
    (hcount : st'.count = st.count + 1) (hflag : st'.flag = st.flag)
    (hsense : st'.isIncFlag = st.isIncFlag)
    (hwriters : st'.flagWriters = st.flagWriters)
    (hcoords : st'.coords = Function.update st.coords i
      ⟨.spin, (st.coords i).tmp, (st.coords i).isRel⟩) :
    Inv N s st' := by
  have hOldInc : pastInc (st.coords i).pc = false := by
    rw [hpc]
    rfl
  have hrelF : (st.coords i).isRel = false := by
    cases h : (st.coords i).isRel
    · rfl
    · have := hinv.rel_arrived i h
      rw [hOldInc] at this
      exact absurd this (by simp)
  have hAlt : arrivedCount st < N := arrivedCount_lt st i hOldInc
  have hAeq : st.count = arrivedCount st := by
    rw [hinv.count_eq, if_neg (by omega)]
  have hAne : arrivedCount st ≠ N - 1 := by omega
  have hA : arrivedCount st' = arrivedCount st + 1 := by
    unfold arrivedCount
    rw [hcoords]
    exact card_filter_update_flip st.coords i _ (fun c => pastInc c.pc) hOldInc rfl
  have hAN2 : arrivedCount st + 1 ≠ N := by omega
  have hRc : relCount st' = relCount st := by
    unfold relCount
    rw [hcoords]
    exact card_filter_update_same st.coords i _ (fun c => c.isRel) rfl
  have hRel0 : relCount st = 0 := by
    rw [hinv.relCard, if_neg (by omega)]
  have hNoRel : ¬ Released st := by
    intro h
    have := released_arrived hinv h
    omega
  have hNoDone : ¬ SomeDone st := not_done_of_not_arrived hinv i hOldInc
  have hNoRel' : ¬ Released st' := by
    unfold Released
    rw [hcoords]
    rw [exists_update_iff]
    rintro (h | ⟨j, _, hj⟩)
    · simp [relPast, hrelF] at h
    · exact hNoRel ⟨j, hj⟩
  have hNoDone' : ¬ SomeDone st' := by
    unfold SomeDone
    rw [hcoords]
    rw [exists_update_iff]
    rintro (h | ⟨j, _, hj⟩)
    · simp [isDone] at h
    · exact hNoDone ⟨j, hj⟩
  refine ⟨?_, ?_, ?_, ?_, ?_, ?_, ?_, ?_, ?_, ?_, ?_, ?_⟩
  · intro j h
    rw [hcoords] at h ⊢
    by_cases hj : j = i
    · subst hj
      rw [Function.update_same]
      show (st.coords j).tmp = s ^^^ 1
      exact hinv.tmp_eq j (by rw [hpc]; rfl)
    · rw [Function.update_noteq hj] at h ⊢
      exact hinv.tmp_eq j h
  · rw [hcount, hA, if_neg hAN2, hAeq]
  · intro j h
    rw [hcoords] at h ⊢
    by_cases hj : j = i
    · subst hj
      rw [Function.update_same] at h
      have h' : (st.coords j).isRel = true := h
      rw [hrelF] at h'
      exact absurd h' (by simp)
    · rw [Function.update_noteq hj] at h ⊢
      exact hinv.rel_arrived j h
  · rw [hRc, hRel0, hA, if_neg hAN2]
  · intro j h
    rw [hcoords] at h ⊢
    by_cases hj : j = i
    · subst hj
      rw [Function.update_same] at h
      exact absurd h (by simp)
    · rw [Function.update_noteq hj] at h ⊢
      exact hinv.setFlag_rel j h
  · intro h
    exact absurd h hNoRel'
  · intro _
    rw [hflag]
    exact hinv.flag_notRel hNoRel
  · intro h
    exact absurd h hNoRel'
  · intro _
    rw [hwriters]
    exact hinv.writers_notRel hNoRel
  · intro h
    exact absurd h hNoDone'
  · intro _
    rw [hsense]
    exact hinv.sense_notDone hNoDone
  · intro j h
    rw [hcoords] at h
    by_cases hj : j = i
    · subst hj
      rw [Function.update_same] at h
      rcases h with h | h <;> exact absurd h (by simp)
    · rw [Function.update_noteq hj] at h
      exact absurd (hinv.pastSpin_rel j h) hNoRel


/-- Preservation for the releaser's write of `flag_`: the value written is
the round's target `s ^^^ 1` (the branch taken stores the literal `1` when
`tmp` is nonzero and `0` otherwise). -/
lemma inv_setFlag {N s : Nat} {st st' : SyncState N} (hs : s ≤ 1) (i : Fin N)
    (hinv : Inv N s st) (hpc : (st.coords i).pc = .setFlag)
    (hcount : st'.count = st.count)
    (hflag : st'.flag = if (st.coords i).tmp ≠ 0 then 1 else 0)
    (hsense : st'.isIncFlag = st.isIncFlag)
    (hwriters : st'.flagWriters = st.flagWriters ++ [i])
    (hcoords : st'.coords = Function.update st.coords i
      ⟨.spin, (st.coords i).tmp, (st.coords i).isRel⟩) :
    Inv N s st' := by
  have hreli : (st.coords i).isRel = true := hinv.setFlag_rel i hpc
  have htmp : (st.coords i).tmp = s ^^^ 1 := hinv.tmp_eq i (by rw [hpc]; rfl)
  have hNoRel : ¬ Released st := by
    rintro ⟨j, hj1, hj2⟩
    have hji : j ≠ i := by
      intro he
      subst he
      rw [hpc] at hj2
      rcases hj2 with h | h | h <;> simp at h
    have h2 := relCount_two st i j (fun he => hji he.symm) hreli hj1
    have hle : relCount st ≤ 1 := by
      rw [hinv.relCard]
      split <;> omega
    omega
  have hflagval : st'.flag = s ^^^ 1 := by
    rw [hflag, htmp]
    have hs2 : s = 0 ∨ s = 1 := by omega
    rcases hs2 with rfl | rfl <;> simp
  have hA : arrivedCount st' = arrivedCount st := by
    unfold arrivedCount
    rw [hcoords]
    exact card_filter_update_same st.coords i _ (fun c => pastInc c.pc)
      (by show pastInc PC.spin = pastInc (st.coords i).pc
          rw [hpc]
          rfl)
  have hRc : relCount st' = relCount st := by
    unfold relCount
    rw [hcoords]
    exact card_filter_update_same st.coords i _ (fun c => c.isRel) rfl
  have hRel' : Released st' := by
    refine ⟨i, ?_⟩
    rw [hcoords, Function.update_same]
    exact ⟨hreli, Or.inl rfl⟩
  have hDone : SomeDone st' ↔ SomeDone st := by
    unfold SomeDone
    rw [hcoords, exists_update_iff, exists_split (fun j => isDone (st.coords j)) i]
    have h1 : ¬ isDone (⟨.spin, (st.coords i).tmp, (st.coords i).isRel⟩ : Coord) := by
      simp [isDone]
    have h2 : ¬ isDone (st.coords i) := by
      intro h
      unfold isDone at h
      rw [hpc] at h
      exact absurd h (by simp)
    tauto
  refine ⟨?_, ?_, ?_, ?_, ?_, ?_, ?_, ?_, ?_, ?_, ?_, ?_⟩
  · intro j h
    rw [hcoords] at h ⊢
    by_cases hj : j = i
    · subst hj
      rw [Function.update_same]
      exact htmp
    · rw [Function.update_noteq hj] at h ⊢
      exact hinv.tmp_eq j h
  · rw [hcount, hA]
    exact hinv.count_eq
  · intro j h
    rw [hcoords] at h ⊢
    by_cases hj : j = i
    · subst hj
      simp [pastInc]
    · rw [Function.update_noteq hj] at h ⊢
      exact hinv.rel_arrived j h
  · rw [hRc, hA]
    exact hinv.relCard
  · intro j h
    rw [hcoords] at h ⊢
    by_cases hj : j = i
    · subst hj
      rw [Function.update_same] at h
      exact absurd h (by simp)
    · rw [Function.update_noteq hj] at h ⊢
      exact hinv.setFlag_rel j h
  · intro _
    exact hflagval
  · intro h
    exact absurd hRel' h
  · intro _
    rw [hwriters, hinv.writers_notRel hNoRel]
    refine ⟨i, by simp, ?_⟩
    rw [hcoords, Function.update_same]
    exact hreli
  · intro h
    exact absurd hRel' h
  · intro h
    rw [hsense]
    exact hinv.sense_done (hDone.mp h)
  · intro h
    rw [hsense]
    exact hinv.sense_notDone (fun hc => h (hDone.mpr hc))
  · intro j _
    exact hRel'

/-- Preservation for a successful poll of `flag_`: the polled condition
can only hold once the releaser has written `flag_`. -/
lemma inv_spin {N s : Nat} {st st' : SyncState N} (hs : s ≤ 1) (i : Fin N)
    (hinv : Inv N s st) (hpc : (st.coords i).pc = .spin)
    (hcond : if (st.coords i).tmp ≠ 0 then st.flag ≠ 0 else st.flag = 0)
    (hcount : st'.count = st.count) (hflag : st'.flag = st.flag)
    (hsense : st'.isIncFlag = st.isIncFlag)
    (hwriters : st'.flagWriters = st.flagWriters)
    (hcoords : st'.coords = Function.update st.coords i
      ⟨.writeSense, (st.coords i).tmp, (st.coords i).isRel⟩) :
    Inv N s st' := by
  have htmp : (st.coords i).tmp = s ^^^ 1 := hinv.tmp_eq i (by rw [hpc]; rfl)
  have hRel : Released st := by
    by_contra h
    have hfl := hinv.flag_notRel h
    rw [htmp] at hcond
    have hs2 : s = 0 ∨ s = 1 := by omega
    rcases hs2 with rfl | rfl
    · simp at hcond
      omega
    · simp at hcond
      omega
  have hRel' : Released st' := by
    obtain ⟨r, hr1, hr2⟩ := hRel
    by_cases hri : r = i
    · subst hri
      refine ⟨r, ?_⟩
      rw [hcoords, Function.update_same]
      exact ⟨hr1, Or.inr (Or.inl rfl)⟩
    · refine ⟨r, ?_⟩
      rw [hcoords, Function.update_noteq hri]
      exact ⟨hr1, hr2⟩
  have hA : arrivedCount st' = arrivedCount st := by
    unfold arrivedCount
    rw [hcoords]
    exact card_filter_update_same st.coords i _ (fun c => pastInc c.pc)
      (by show pastInc PC.writeSense = pastInc (st.coords i).pc
          rw [hpc]
          rfl)
  have hRc : relCount st' = relCount st := by
    unfold relCount
    rw [hcoords]
    exact card_filter_update_same st.coords i _ (fun c => c.isRel) rfl
  have hDone : SomeDone st' ↔ SomeDone st := by
    unfold SomeDone
    rw [hcoords, exists_update_iff, exists_split (fun j => isDone (st.coords j)) i]
    have h1 : ¬ isDone (⟨.writeSense, (st.coords i).tmp, (st.coords i).isRel⟩ : Coord) := by
      simp [isDone]
    have h2 : ¬ isDone (st.coords i) := by
      intro h
      unfold isDone at h
      rw [hpc] at h
      exact absurd h (by simp)
    tauto
  refine ⟨?_, ?_, ?_, ?_, ?_, ?_, ?_, ?_, ?_, ?_, ?_, ?_⟩
  · intro j h
    rw [hcoords] at h ⊢
    by_cases hj : j = i
    · subst hj
      rw [Function.update_same]
      exact htmp
    · rw [Function.update_noteq hj] at h ⊢
      exact hinv.tmp_eq j h
  · rw [hcount, hA]
    exact hinv.count_eq
  · intro j h
    rw [hcoords] at h ⊢
    by_cases hj : j = i
    · subst hj
      simp [pastInc]
    · rw [Function.update_noteq hj] at h ⊢
      exact hinv.rel_arrived j h
  · rw [hRc, hA]
    exact hinv.relCard
  · intro j h
    rw [hcoords] at h ⊢
    by_cases hj : j = i
    · subst hj
      rw [Function.update_same] at h
      exact absurd h (by simp)
    · rw [Function.update_noteq hj] at h ⊢
      exact hinv.setFlag_rel j h
  · intro _
    rw [hflag]
    exact hinv.flag_rel hRel
  · intro h
    exact absurd hRel' h
  · intro _
    rw [hwriters]
    obtain ⟨r, hw, hr⟩ := hinv.writers_rel hRel
    refine ⟨r, hw, ?_⟩
    rw [hcoords]
    by_cases hri : r = i
    · subst hri
      rw [Function.update_same]
      exact hr
    · rw [Function.update_noteq hri]
      exact hr
  · intro h
    exact absurd hRel' h
  · intro h
    rw [hsense]
    exact hinv.sense_done (hDone.mp h)
  · intro h
    rw [hsense]
    exact hinv.sense_notDone (fun hc => h (hDone.mpr hc))
  · intro j _
    exact hRel'

/-- Preservation for `isIncFlag_ = tmp;` and return: the coordinator
records the round's target as the sense for the next round. -/
lemma inv_writeSense {N s : Nat} {st st' : SyncState N} (i : Fin N)
    (hinv : Inv N s st) (hpc : (st.coords i).pc = .writeSense)
    (hcount : st'.count = st.count) (hflag : st'.flag = st.flag)
    (hsense : st'.isIncFlag = (st.coords i).tmp)
    (hwriters : st'.flagWriters = st.flagWriters)
    (hcoords : st'.coords = Function.update st.coords i
      ⟨.done, (st.coords i).tmp, (st.coords i).isRel⟩) :
    Inv N s st' := by
  have htmp : (st.coords i).tmp = s ^^^ 1 := hinv.tmp_eq i (by rw [hpc]; rfl)
  have hRel : Released st := hinv.pastSpin_rel i (Or.inl hpc)
  have hRel' : Released st' := by
    obtain ⟨r, hr1, hr2⟩ := hRel
    by_cases hri : r = i
    · subst hri
      refine ⟨r, ?_⟩
      rw [hcoords, Function.update_same]
      exact ⟨hr1, Or.inr (Or.inr rfl)⟩
    · refine ⟨r, ?_⟩
      rw [hcoords, Function.update_noteq hri]
      exact ⟨hr1, hr2⟩
  have hDone' : SomeDone st' := by
    refine ⟨i, ?_⟩
    rw [hcoords, Function.update_same]
    rfl
  have hA : arrivedCount st' = arrivedCount st := by
    unfold arrivedCount
    rw [hcoords]
    exact card_filter_update_same st.coords i _ (fun c => pastInc c.pc)
      (by show pastInc PC.done = pastInc (st.coords i).pc
          rw [hpc]
          rfl)
  have hRc : relCount st' = relCount st := by
    unfold relCount
    rw [hcoords]
    exact card_filter_update_same st.coords i _ (fun c => c.isRel) rfl
  refine ⟨?_, ?_, ?_, ?_, ?_, ?_, ?_, ?_, ?_, ?_, ?_, ?_⟩
  · intro j h
    rw [hcoords] at h ⊢
    by_cases hj : j = i
    · subst hj
      rw [Function.update_same]
      exact htmp
    · rw [Function.update_noteq hj] at h ⊢
      exact hinv.tmp_eq j h
  · rw [hcount, hA]
    exact hinv.count_eq
  · intro j h
    rw [hcoords] at h ⊢
    by_cases hj : j = i
    · subst hj
      simp [pastInc]
    · rw [Function.update_noteq hj] at h ⊢
      exact hinv.rel_arrived j h
  · rw [hRc, hA]
    exact hinv.relCard
  · intro j h
    rw [hcoords] at h ⊢
    by_cases hj : j = i
    · subst hj
      rw [Function.update_same] at h
      exact absurd h (by simp)
    · rw [Function.update_noteq hj] at h ⊢
      exact hinv.setFlag_rel j h
  · intro _
    rw [hflag]
    exact hinv.flag_rel hRel
  · intro h
    exact absurd hRel' h
  · intro _
    rw [hwriters]
    obtain ⟨r, hw, hr⟩ := hinv.writers_rel hRel
    refine ⟨r, hw, ?_⟩
    rw [hcoords]
    by_cases hri : r = i
    · subst hri
      rw [Function.update_same]
      exact hr
    · rw [Function.update_noteq hri]
      exact hr
  · intro h
    exact absurd hRel' h
  · intro _
    rw [hsense, htmp]
  · intro h
    exact absurd hDone' h
  · intro j _
    exact hRel'


/-- Any enabled step preserves the round invariant. -/
lemma inv_step {N s : Nat} (hN : 2 ≤ N) (hs : s ≤ 1) {st st' : SyncState N} (i : Fin N)
    (hstep : stepCoord st i = some st') (hinv : Inv N s st) : Inv N s st' := by
  cases hpc : (st.coords i).pc
  case entry =>
    simp only [stepCoord, hpc] at hstep
    rw [if_neg (by omega : ¬ N = 1)] at hstep
    simp only [Option.some.injEq] at hstep
    subst hstep
    exact inv_advance_early i hinv .fence (by rw [hpc]; rfl) rfl rfl
      (by decide) (by decide) (by decide) rfl rfl rfl rfl rfl
  case fence =>
    simp only [stepCoord, hpc] at hstep
    simp only [Option.some.injEq] at hstep
    subst hstep
    exact inv_advance_early i hinv .readSense (by rw [hpc]; rfl) rfl rfl
      (by decide) (by decide) (by decide) rfl rfl rfl rfl rfl
  case readSense =>
    simp only [stepCoord, hpc] at hstep
    simp only [Option.some.injEq] at hstep
    subst hstep
    exact inv_readSense i hinv hpc rfl rfl rfl rfl rfl
  case inc =>
    simp only [stepCoord, hpc] at hstep
    by_cases hold : st.count = N - 1
    · rw [if_pos hold] at hstep
      rw [if_pos (by omega : st.count ≥ N - 1)] at hstep
      simp only [Option.some.injEq] at hstep
      subst hstep
      exact inv_inc_rel hN i hinv hpc hold rfl rfl rfl rfl rfl
    · rw [if_neg hold] at hstep
      have hAlt : arrivedCount st < N := arrivedCount_lt st i (by rw [hpc]; rfl)
      have hAeq : st.count = arrivedCount st := by
        rw [hinv.count_eq, if_neg (by omega)]
      rw [if_neg (by omega : ¬ st.count ≥ N - 1)] at hstep
      simp only [Option.some.injEq] at hstep
      subst hstep
      exact inv_inc_nonrel hN i hinv hpc hold rfl rfl rfl rfl rfl
  case setFlag =>
    simp only [stepCoord, hpc] at hstep
    simp only [Option.some.injEq] at hstep
    subst hstep
    exact inv_setFlag hs i hinv hpc rfl rfl rfl rfl rfl
  case spin =>
    simp only [stepCoord, hpc] at hstep
    by_cases hcond : (if (st.coords i).tmp ≠ 0 then st.flag ≠ 0 else st.flag = 0)
    · rw [if_pos hcond] at hstep
      simp only [Option.some.injEq] at hstep
      subst hstep
      exact inv_spin hs i hinv hpc hcond rfl rfl rfl rfl rfl
    · rw [if_neg hcond] at hstep
      exact absurd hstep (by simp)
  case writeSense =>
    simp only [stepCoord, hpc] at hstep
    simp only [Option.some.injEq] at hstep
    subst hstep
    exact inv_writeSense i hinv hpc rfl rfl rfl rfl rfl
  case done =>
    simp only [stepCoord, hpc] at hstep
    exact absurd hstep (by simp)

/-- Every state reachable in a round started from `roundInit N s`
satisfies the invariant. -/
lemma inv_reach {N s : Nat} (hN : 2 ≤ N) (hs : s ≤ 1) {st : SyncState N}
    (h : Reach (roundInit N s) st) : Inv N s st := by
  induction h with
  | refl => exact inv_init N s hN
  | step i hr hstep ih => exact inv_step hN hs i hstep ih


/-- In a terminal state every coordinator is either spinning or done:
every other position has an unconditionally enabled step. -/
lemma terminal_spin_or_done {N : Nat} {st : SyncState N} (hterm : Terminal st) :
    ∀ i, (st.coords i).pc = .spin ∨ (st.coords i).pc = .done := by
  intro i
  have h := hterm i
  cases hpc : (st.coords i).pc
  case entry =>
    simp only [stepCoord, hpc] at h
    split_ifs at h
  case fence =>
    simp only [stepCoord, hpc] at h
    exact absurd h (by simp)
  case readSense =>
    simp only [stepCoord, hpc] at h
    exact absurd h (by simp)
  case inc =>
    simp only [stepCoord, hpc] at h
    split_ifs at h
  case setFlag =>
    simp only [stepCoord, hpc] at h
    exact absurd h (by simp)
  case spin =>
    exact Or.inl rfl
  case writeSense =>
    simp only [stepCoord, hpc] at h
    exact absurd h (by simp)
  case done =>
    exact Or.inr rfl

/-- In a terminal state of a round with `2 ≤ N` every coordinator has
returned: the round cannot deadlock.  (The releaser must have written
`flag_` to the round's target, so every spin-wait condition holds.) -/
lemma terminal_all_done {N s : Nat} (hs : s ≤ 1) {st : SyncState N}
    (hinv : Inv N s st) (hterm : Terminal st) :
    ∀ i, (st.coords i).pc = .done := by
  have hsd := terminal_spin_or_done hterm
  have hall : ∀ j, pastInc (st.coords j).pc = true := by
    intro j
    rcases hsd j with h | h <;> rw [h] <;> rfl
  have hA : arrivedCount st = N := by
    unfold arrivedCount
    rw [Finset.filter_true_of_mem (fun j _ => hall j), Finset.card_univ, Fintype.card_fin]
  have hRel : Released st := by
    have h1 : relCount st = 1 := by
      rw [hinv.relCard, if_pos hA]
    obtain ⟨r, hr⟩ := Finset.card_eq_one.mp h1
    have hrmem : r ∈ Finset.univ.filter (fun j => (st.coords j).isRel = true) := by
      rw [hr]
      exact Finset.mem_singleton_self r
    rw [Finset.mem_filter] at hrmem
    rcases hsd r with h | h
    · exact ⟨r, hrmem.2, Or.inl h⟩
    · exact ⟨r, hrmem.2, Or.inr (Or.inr h)⟩
  have hflag : st.flag = s ^^^ 1 := hinv.flag_rel hRel
  intro i
  rcases hsd i with h | h
  · exfalso
    have hstep := hterm i
    simp only [stepCoord, h] at hstep
    have htmp : (st.coords i).tmp = s ^^^ 1 := hinv.tmp_eq i (by rw [h]; rfl)
    have hcond : (if (st.coords i).tmp ≠ 0 then st.flag ≠ 0 else st.flag = 0) := by
      rw [htmp, hflag]
      have hs2 : s = 0 ∨ s = 1 := by omega
      rcases hs2 with rfl | rfl <;> simp
    rw [if_pos hcond] at hstep
    exact absurd hstep (by simp)
  · exact h

/-- Remaining program steps of a coordinator (an upper bound). -/
def rank : PC → Nat
  | .entry => 7
  | .fence => 6
  | .readSense => 5
  | .inc => 4
  | .setFlag => 3
  | .spin => 2
  | .writeSense => 1
  | .done => 0

/-- Sum of the remaining program steps of all coordinators: a variant
function for the round. -/
def syncMeasure {N : Nat} (st : SyncState N) : Nat :=
  ∑ j, rank (st.coords j).pc

lemma syncMeasure_lt {N : Nat} (st st' : SyncState N) (i : Fin N) (c' : Coord)
    (hcoords : st'.coords = Function.update st.coords i c')
    (h : rank c'.pc < rank (st.coords i).pc) :
    syncMeasure st' < syncMeasure st := by
  unfold syncMeasure
  rw [hcoords]
  have h1 : (∑ j, rank (Function.update st.coords i c' j).pc)
      = rank c'.pc + ∑ j ∈ Finset.univ.erase i, rank (st.coords j).pc := by
    rw [← Finset.add_sum_erase Finset.univ _ (Finset.mem_univ i)]
    congr 1
    · rw [Function.update_same]
    · apply Finset.sum_congr rfl
      intro j hj
      rw [Function.update_noteq (Finset.ne_of_mem_erase hj)]
  have h2 : (∑ j, rank (st.coords j).pc)
      = rank (st.coords i).pc + ∑ j ∈ Finset.univ.erase i, rank (st.coords j).pc :=
    (Finset.add_sum_erase Finset.univ _ (Finset.mem_univ i)).symm
  omega

/-- Every enabled step strictly decreases the variant, so no execution of
the round machine can take state-changing steps forever. -/
lemma syncMeasure_step {N : Nat} (st st' : SyncState N) (i : Fin N)
    (hstep : stepCoord st i = some st') : syncMeasure st' < syncMeasure st := by
  cases hpc : (st.coords i).pc
  case entry =>
    simp only [stepCoord, hpc] at hstep
    split_ifs at hstep <;> simp only [Option.some.injEq] at hstep <;> subst hstep
    · exact syncMeasure_lt st _ i _ rfl
        (by rw [hpc]; exact (by decide : rank PC.done < rank PC.entry))
    · exact syncMeasure_lt st _ i _ rfl
        (by rw [hpc]; exact (by decide : rank PC.fence < rank PC.entry))
  case fence =>
    simp only [stepCoord, hpc] at hstep
    simp only [Option.some.injEq] at hstep
    subst hstep
    exact syncMeasure_lt st _ i _ rfl
      (by rw [hpc]; exact (by decide : rank PC.readSense < rank PC.fence))
  case readSense =>
    simp only [stepCoord, hpc] at hstep
    simp only [Option.some.injEq] at hstep
    subst hstep
    exact syncMeasure_lt st _ i _ rfl
      (by rw [hpc]; exact (by decide : rank PC.inc < rank PC.readSense))
  case inc =>
    simp only [stepCoord, hpc] at hstep
    split_ifs at hstep <;> simp only [Option.some.injEq] at hstep <;> subst hstep <;>
      first
      | exact syncMeasure_lt st _ i _ rfl
          (by rw [hpc]; exact (by decide : rank PC.setFlag < rank PC.inc))
      | exact syncMeasure_lt st _ i _ rfl
          (by rw [hpc]; exact (by decide : rank PC.spin < rank PC.inc))
  case setFlag =>
    simp only [stepCoord, hpc] at hstep
    simp only [Option.some.injEq] at hstep
    subst hstep
    exact syncMeasure_lt st _ i _ rfl
      (by rw [hpc]; exact (by decide : rank PC.spin < rank PC.setFlag))
  case spin =>
    simp only [stepCoord, hpc] at hstep
    split_ifs at hstep <;>
      · simp only [Option.some.injEq] at hstep
        subst hstep
        exact syncMeasure_lt st _ i _ rfl
          (by rw [hpc]; exact (by decide : rank PC.writeSense < rank PC.spin))
  case writeSense =>
    simp only [stepCoord, hpc] at hstep
    simp only [Option.some.injEq] at hstep
    subst hstep
    exact syncMeasure_lt st _ i _ rfl
      (by rw [hpc]; exact (by decide : rank PC.done < rank PC.writeSense))
  case done =>
    simp only [stepCoord, hpc] at hstep
    exact absurd hstep (by simp)


/-- The same `DeviceSyncer` object entering its next round: the shared
fields (`count_`, `flag_`, `isIncFlag_`) persist, each block calls `sync`
afresh (fresh coordinator-local state), and the ghost per-round write log
is reset. -/
def nextRoundStart {N : Nat} (st : SyncState N) : SyncState N :=
  initState N st.count st.flag st.isIncFlag

/-- Outcome of the spin loop: left the loop because the polled condition
became false after `spins` iterations, raised the fatal fault after
`spins` iterations, or still spinning after the examined iterations. -/
inductive PollOutcome
  | exited (spins : Nat)
  | faulted (spins : Nat)
  | spinning
deriving DecidableEq, Repr

/-- Modelled from the spec: the macro `POLL_MAYBE_JAILBREAK(cond,
maxSpinCount)` used by `DeviceSyncer::sync` is defined in
`include/mscclpp/poll_device.hpp`, which is not among the given sources.
Following the spec's stuck-round detection and unbounded-wait
sentences: the loop re-evaluates the polled condition; while it holds the
spin counter increments, and once the counter reaches `maxSpinCount` with
`maxSpinCount ≥ 0` the loop raises a fatal device-side fault; a negative
`maxSpinCount` disables the bound and the wait is unbounded.  `cond k` is
the polled condition's value at the `k`-th iteration (the round's progress
is outside the loop), and `fuel` limits how many iterations are examined
— the loop itself has no such limit. -/
def pollMaybeJailbreak (cond : Nat → Bool) (maxSpinCount : Int) :
    Nat → Nat → PollOutcome
  | _, 0 => .spinning
  | k, fuel + 1 =>
    if cond k = false then .exited k
    else if 0 ≤ maxSpinCount ∧ maxSpinCount ≤ (k : Int) then .faulted k
    else pollMaybeJailbreak cond maxSpinCount (k + 1) fuel

/-- The default spin bound of `DeviceSyncer::sync`:
`int64_t maxSpinCount = 100000000`. -/
def syncDefaultMaxSpinCount : Int := 100000000

/-- Effect of `cudaMemsetAsync(ptr, 0, len, stream)` followed by
`cudaStreamSynchronize` (or of a plain `memset(ptr, 0, len)`) on the
allocation's contents, at integer-word granularity. -/
def cudaMemsetZero (mem : Nat → Nat) (len : Nat) : Nat → Nat :=
  fun a => if a < len then 0 else mem a

/-- Embeds `detail::cudaCalloc<T>` (success path): `cudaMalloc` returns
`nelem * sizeof(T)` units of memory with arbitrary contents `raw`;
`cudaMemsetAsync(ptr, 0, nelem * sizeof(T), stream)` and
`cudaStreamSynchronize(stream)` zero them before the pointer is
returned. -/
def cudaCalloc (sizeofT nelem : Nat) (raw : Nat → Nat) : Nat → Nat :=
  cudaMemsetZero raw (nelem * sizeofT)

/-- Embeds `detail::cudaHostCalloc<T>` (success path): `cudaHostAlloc`
returns memory with arbitrary contents `raw`;
`memset(ptr, 0, nelem * sizeof(T))` zeroes them. -/
def cudaHostCalloc (sizeofT nelem : Nat) (raw : Nat → Nat) : Nat → Nat :=
  cudaMemsetZero raw (nelem * sizeofT)

/-- `DeviceSyncer` occupies three scalar words: `flag_`, `count_`,
`isIncFlag_` (in declaration order). -/
def deviceSyncerWords : Nat := 3

/-- The raw field values of a `DeviceSyncer` object as read from the
memory it is placed in. -/
structure DeviceSyncerMem where
  flag : Nat
  count : Nat
  isIncFlag : Nat
deriving DecidableEq, Repr

/-- Read the three `DeviceSyncer` fields from memory at `base`. -/
def deviceSyncerAt (mem : Nat → Nat) (base : Nat) : DeviceSyncerMem :=
  { flag := mem base, count := mem (base + 1), isIncFlag := mem (base + 2) }

/-- `DeviceSyncer() = default;` — the defaulted constructor of a class
whose members are scalar fields performs no initialization: constructing
the object in raw memory leaves every field with whatever value that
memory already holds. -/
def deviceSyncerConstruct (raw : DeviceSyncerMem) : DeviceSyncerMem := raw

/-- Device-allocation bookkeeping: a fresh-pointer source and the list of
currently live (allocated, not yet freed) device blocks. -/
structure AllocWorld where
  nextPtr : Nat
  allocated : List Nat
deriving DecidableEq, Repr

/-- Which CUDA call inside `detail::cudaCalloc` fails (returns a
non-success `cudaError_t`, making `MSCCLPP_CUDATHROW` throw). -/
inductive CudaFail
  | mallocFail
  | memsetFail
  | syncFail
deriving DecidableEq, Repr

/-- Embeds the control flow of `detail::cudaCalloc<T>` with explicit
failure injection: `cudaMalloc` allocates a fresh block; a throw from any
of the three `MSCCLPP_CUDATHROW` sites propagates the error.  The error
carries the world so the fate of the allocation is observable: after a
failing `cudaMemsetAsync` or `cudaStreamSynchronize`, the block allocated
by the preceding `cudaMalloc` is still live. -/
def cudaCallocRun (fail : Option CudaFail) (w : AllocWorld) :
    Except AllocWorld (AllocWorld × Nat) :=
  -- MSCCLPP_CUDATHROW(cudaMalloc(&ptr, nelem * sizeof(T)));
  if fail = some .mallocFail then .error w
  else
    let p := w.nextPtr
    let w1 : AllocWorld := { nextPtr := p + 1, allocated := p :: w.allocated }
    -- MSCCLPP_CUDATHROW(cudaMemsetAsync(ptr, 0, nelem * sizeof(T), stream));
    if fail = some .memsetFail then .error w1
    -- MSCCLPP_CUDATHROW(cudaStreamSynchronize(stream));
    else if fail = some .syncFail then .error w1
    else .ok (w1, p)

/-- Embeds `CudaDeleter<T>::operator()`: `cudaFree(ptr)`. -/
def cudaFreeRun (w : AllocWorld) (p : Nat) : AllocWorld :=
  { w with allocated := w.allocated.erase p }

/-- Embeds `detail::safeAlloc<T, alloc, Deleter, Memory>`:

`T* ptr = nullptr; try { ptr = alloc(nelem); } catch (...) { if (ptr)
Deleter()(ptr); throw; } return Memory(ptr, Deleter());`

The assignment to `ptr` completes only when `alloc` returns normally, so
when the catch handler runs, `ptr` still holds `nullptr` (modelled as
`none`) and the `if (ptr)` branch that would invoke the deleter is never
taken. -/
def safeAllocRun (fail : Option CudaFail) (w : AllocWorld) :
    Except AllocWorld (AllocWorld × Nat) :=
  let ptr : Option Nat := none
  match cudaCallocRun fail w with
  | .ok r => .ok r
  | .error w' =>
      match ptr with
      | some p => .error (cudaFreeRun w' p)
      | none => .error w'

/-- The three values of `cudaStreamCaptureMode`. -/
inductive CaptureMode
  | modeGlobal
  | modeThreadLocal
  | modeRelaxed
deriving DecidableEq, Repr

/-- The CUDA runtime calls issued by the helper layer. -/
inductive GpuOp
  | allocOp
  | hostAllocOp
  | freeOp
  | hostFreeOp
  | copyOp
  | memsetOp
  | streamCreateOp
  | streamDestroyOp
  | streamSyncOp
deriving DecidableEq, Repr

/-- The calling thread's stream-capture mode, and the log of issued CUDA
operations, each recorded with the capture mode in force when it was
issued. -/
structure TraceState where
  mode : CaptureMode
  events : List (GpuOp × CaptureMode)
deriving DecidableEq, Repr

/-- Issue one CUDA operation under the current capture mode. -/
def emit (e : GpuOp) (ts : TraceState) : TraceState :=
  { ts with events := ts.events ++ [(e, ts.mode)] }

/-- `AvoidCudaGraphCaptureGuard` constructor:
`cudaThreadExchangeStreamCaptureMode(&mode_)` with
`mode_ = cudaStreamCaptureModeRelaxed` — switches the thread to relaxed
capture mode and returns the previous mode (saved in the guard). -/
def guardEnter (ts : TraceState) : CaptureMode × TraceState :=
  (ts.mode, { ts with mode := .modeRelaxed })

/-- `AvoidCudaGraphCaptureGuard` destructor: exchanges the saved mode
back.  As a destructor it runs on every exit path, including stack
unwinding after a throw. -/
def guardExit (saved : CaptureMode) (ts : TraceState) : TraceState :=
  { ts with mode := saved }

/-- The CUDA-call trace of `detail::cudaCalloc<T>`: guard, stream
creation, `cudaMalloc`, `cudaMemsetAsync`, `cudaStreamSynchronize`; on a
throw the stream's and the guard's destructors still run (in reverse
construction order).  Returns whether the call completed normally. -/
def cudaCallocTrace (mallocFails memsetFails syncFails : Bool)
    (ts : TraceState) : Bool × TraceState :=
  let (saved, ts1) := guardEnter ts
  let ts2 := emit .streamCreateOp ts1
  let ts3 := emit .allocOp ts2
  if mallocFails then (false, guardExit saved (emit .streamDestroyOp ts3))
  else
    let ts4 := emit .memsetOp ts3
    if memsetFails then (false, guardExit saved (emit .streamDestroyOp ts4))
    else
      let ts5 := emit .streamSyncOp ts4
      if syncFails then (false, guardExit saved (emit .streamDestroyOp ts5))
      else (true, guardExit saved (emit .streamDestroyOp ts5))

/-- The CUDA-call trace of `detail::cudaHostCalloc<T>`: guard,
`cudaHostAlloc`, `memset` (the plain `memset` cannot throw). -/
def cudaHostCallocTrace (allocFails : Bool) (ts : TraceState) :
    Bool × TraceState :=
  let (saved, ts1) := guardEnter ts
  let ts2 := emit .hostAllocOp ts1
  if allocFails then (false, guardExit saved ts2)
  else (true, guardExit saved (emit .memsetOp ts2))

/-- The CUDA-call trace of `CudaDeleter<T>::operator()`: guard,
`cudaFree`; a throw from `MSCCLPP_CUDATHROW` still restores the mode. -/
def cudaDeleterTrace (freeFails : Bool) (ts : TraceState) :
    Bool × TraceState :=
  let (saved, ts1) := guardEnter ts
  let ts2 := emit .freeOp ts1
  (!freeFails, guardExit saved ts2)

/-- The CUDA-call trace of `CudaHostDeleter<T>::operator()`: guard,
`cudaFreeHost`. -/
def cudaHostDeleterTrace (freeFails : Bool) (ts : TraceState) :
    Bool × TraceState :=
  let (saved, ts1) := guardEnter ts
  let ts2 := emit .hostFreeOp ts1
  (!freeFails, guardExit saved ts2)

/-- The CUDA-call trace of `memcpyCudaAsync<T>`: guard,
`cudaMemcpyAsync` on the caller's stream. -/
def memcpyCudaAsyncTrace (copyFails : Bool) (ts : TraceState) :
    Bool × TraceState :=
  let (saved, ts1) := guardEnter ts
  let ts2 := emit .copyOp ts1
  (!copyFails, guardExit saved ts2)

/-- The CUDA-call trace of `memcpyCuda<T>`: guard, internal stream,
`cudaMemcpyAsync`, `cudaStreamSynchronize`; destructors run on every exit
path. -/
def memcpyCudaTrace (copyFails syncFails : Bool) (ts : TraceState) :
    Bool × TraceState :=
  let (saved, ts1) := guardEnter ts
  let ts2 := emit .streamCreateOp ts1
  let ts3 := emit .copyOp ts2
  if copyFails then (false, guardExit saved (emit .streamDestroyOp ts3))
  else
    let ts4 := emit .streamSyncOp ts3
    if syncFails then (false, guardExit saved (emit .streamDestroyOp ts4))
    else (true, guardExit saved (emit .streamDestroyOp ts4))


lemma poll_stuck_faults (cond : Nat → Bool) (m : Int) (hm : 0 ≤ m)
    (hc : ∀ k, cond k = true) :
    ∀ d k, k + d = m.toNat →
      pollMaybeJailbreak cond m k (d + 1) = .faulted m.toNat := by
  intro d
  induction d with
  | zero =>
    intro k hk
    unfold pollMaybeJailbreak
    rw [hc k]
    simp only [Bool.true_eq_false, if_false]
    rw [if_pos ⟨hm, by omega⟩]
    have hk0 : k = m.toNat := by omega
    rw [hk0]
  | succ d ih =>
    intro k hk
    show pollMaybeJailbreak cond m k (d + 1 + 1) = .faulted m.toNat
    unfold pollMaybeJailbreak
    rw [hc k]
    simp only [Bool.true_eq_false, if_false]
    rw [if_neg (by omega)]
    exact ih (k + 1) (by omega)


lemma poll_stuck_classify (cond : Nat → Bool) (m : Int) (hm : 0 ≤ m)
    (hc : ∀ k, cond k = true) :
    ∀ fuel k, k ≤ m.toNat →
      pollMaybeJailbreak cond m k fuel = .spinning
      ∨ pollMaybeJailbreak cond m k fuel = .faulted m.toNat := by
  intro fuel
  induction fuel with
  | zero =>
    intro k _
    exact Or.inl rfl
  | succ fuel ih =>
    intro k hk
    unfold pollMaybeJailbreak
    rw [hc k]
    simp only [Bool.true_eq_false, if_false]
    by_cases hkm : k = m.toNat
    · rw [if_pos ⟨hm, by omega⟩, hkm]
      exact Or.inr rfl
    · rw [if_neg (by omega)]
      exact ih (k + 1) (by omega)

lemma poll_neg_no_fault (cond : Nat → Bool) (m : Int) (hm : m < 0) :
    ∀ fuel k j, pollMaybeJailbreak cond m k fuel ≠ .faulted j := by
  intro fuel
  induction fuel with
  | zero =>
    intro k j h
    exact absurd h (by simp [pollMaybeJailbreak])
  | succ fuel ih =>
    intro k j h
    unfold pollMaybeJailbreak at h
    by_cases hck : cond k = false
    · rw [if_pos hck] at h
      exact absurd h (by simp)
    · rw [if_neg hck, if_neg (fun hx => absurd hx.1 (by omega))] at h
      exact ih (k + 1) j h

lemma poll_neg_spins (cond : Nat → Bool) (m : Int) (hm : m < 0)
    (hc : ∀ k, cond k = true) :
    ∀ fuel k, pollMaybeJailbreak cond m k fuel = .spinning := by
  intro fuel
  induction fuel with
  | zero =>
    intro k
    rfl
  | succ fuel ih =>
    intro k
    unfold pollMaybeJailbreak
    rw [hc k]
    simp only [Bool.true_eq_false, if_false]
    rw [if_neg (fun hx => absurd hx.1 (by omega))]
    exact ih (k + 1)

lemma pastFence_of_pastInc : ∀ p : PC, pastInc p = true → pastFence p = true := by
  intro p h
  cases p <;> revert h <;> decide


/-- Claim C1: for every round with `participantCount = N > 1` in which
exactly `N` blocks each call `sync` once, the round completes — every
maximal execution of the round machine is finite (each state-changing
step strictly decreases the variant) and ends with all `N` coordinators
returned — no block returns from `sync` before all `N` blocks have
arrived (performed their `atomicInc`), and once any block has returned,
every block has executed its `__threadfence()`, so every memory write a
participant issued before its own `sync` call is visible to every
participant after its `sync` call returns. -/
theorem sync_round_completes_and_orders (N s : Nat) (hN : 2 ≤ N) (hs : s ≤ 1) :
    (∀ st : SyncState N, Reach (roundInit N s) st → Terminal st →
        ∀ i, (st.coords i).pc = .done)
    ∧ (∀ st st' : SyncState N, ∀ i : Fin N, stepCoord st i = some st' →
        syncMeasure st' < syncMeasure st)
    ∧ (∀ st : SyncState N, Reach (roundInit N s) st →
        ∀ i, (st.coords i).pc = .done →
          ∀ j, pastInc (st.coords j).pc = true ∧ pastFence (st.coords j).pc = true) := by
  refine ⟨?_, ?_, ?_⟩
  · intro st hr hterm
    exact terminal_all_done hs (inv_reach hN hs hr) hterm
  · intro st st' i h
    exact syncMeasure_step st st' i h
  · intro st hr i hdone j
    have hinv := inv_reach hN hs hr
    have hRel : Released st := hinv.pastSpin_rel i (Or.inr hdone)
    have hA := released_arrived hinv hRel
    have hInc := arrived_all st hA j
    exact ⟨hInc, pastFence_of_pastInc _ hInc⟩

theorem sync_round_completes_and_orders_witness :
    2 ≤ 2 ∧ (0 : Nat) ≤ 1 ∧
    ((∀ st : SyncState 2, Reach (roundInit 2 0) st → Terminal st →
        ∀ i, (st.coords i).pc = .done)
    ∧ (∀ st st' : SyncState 2, ∀ i : Fin 2, stepCoord st i = some st' →
        syncMeasure st' < syncMeasure st)
    ∧ (∀ st : SyncState 2, Reach (roundInit 2 0) st →
        ∀ i, (st.coords i).pc = .done →
          ∀ j, pastInc (st.coords j).pc = true ∧ pastFence (st.coords j).pc = true)) :=
  ⟨by decide, by decide, sync_round_completes_and_orders 2 0 (by decide) (by decide)⟩

/-- Claim C3: in every round with `participantCount = N > 1`, the shared
counter stays in `[0, N-1]`; an `atomicInc` performed when the counter
holds `N-1` wraps it to `0` and marks the incrementing coordinator as the
releaser; at most one coordinator per round is marked releaser, and in a
completed (terminal) round exactly one is; the flag is written at most
once per round, and only by the releaser. -/
theorem sync_counter_and_releaser_invariants (N s : Nat) (hN : 2 ≤ N) (hs : s ≤ 1) :
    ∀ st : SyncState N, Reach (roundInit N s) st →
      st.count ≤ N - 1
      ∧ (∀ i, (st.coords i).pc = .inc → st.count = N - 1 →
          ∃ st', stepCoord st i = some st' ∧ st'.count = 0 ∧ (st'.coords i).isRel = true)
      ∧ relCount st ≤ 1
      ∧ (Terminal st → relCount st = 1)
      ∧ st.flagWriters.length ≤ 1
      ∧ (∀ r ∈ st.flagWriters, (st.coords r).isRel = true) := by
  intro st hr
  have hinv := inv_reach hN hs hr
  have hAle : arrivedCount st ≤ N := by
    unfold arrivedCount
    calc (Finset.univ.filter fun i => pastInc (st.coords i).pc = true).card
        ≤ Finset.univ.card := Finset.card_filter_le _ _
      _ = N := by simp
  refine ⟨?_, ?_, ?_, ?_, ?_, ?_⟩
  · rw [hinv.count_eq]
    split <;> omega
  · intro i hpc hcnt
    simp only [stepCoord, hpc]
    rw [if_pos hcnt, if_pos (by omega : st.count ≥ N - 1)]
    exact ⟨_, rfl, rfl, by simp⟩
  · rw [hinv.relCard]
    split <;> omega
  · intro hterm
    have hall := terminal_all_done hs hinv hterm
    have hA : arrivedCount st = N := by
      unfold arrivedCount
      rw [Finset.filter_true_of_mem (fun j _ => by rw [hall j]; rfl),
        Finset.card_univ, Fintype.card_fin]
    rw [hinv.relCard, if_pos hA]
  · by_cases hrel : Released st
    · obtain ⟨r, hw, _⟩ := hinv.writers_rel hrel
      rw [hw]
      simp
    · rw [hinv.writers_notRel hrel]
      simp
  · intro r hrmem
    by_cases hrel : Released st
    · obtain ⟨r2, hw, hr2⟩ := hinv.writers_rel hrel
      rw [hw] at hrmem
      simp at hrmem
      rw [hrmem]
      exact hr2
    · rw [hinv.writers_notRel hrel] at hrmem
      simp at hrmem

theorem sync_counter_and_releaser_invariants_witness :
    2 ≤ 2 ∧ (0 : Nat) ≤ 1 ∧
    (∀ st : SyncState 2, Reach (roundInit 2 0) st →
      st.count ≤ 2 - 1
      ∧ (∀ i, (st.coords i).pc = .inc → st.count = 2 - 1 →
          ∃ st', stepCoord st i = some st' ∧ st'.count = 0 ∧ (st'.coords i).isRel = true)
      ∧ relCount st ≤ 1
      ∧ (Terminal st → relCount st = 1)
      ∧ st.flagWriters.length ≤ 1
      ∧ (∀ r ∈ st.flagWriters, (st.coords r).isRel = true)) :=
  ⟨by decide, by decide, sync_counter_and_releaser_invariants 2 0 (by decide) (by decide)⟩

/-- Claim C4: a completed round started with sense `s` ends with the flag
at the round's target `s ^^^ 1` (the complement of the value that
completed the previous round), with the per-object sense field
`isIncFlag_` updated to that target and the counter back at `0`; the next
round on the same object therefore starts with sense `s ^^^ 1`, and its
completion flag differs from this round's completion flag. -/
theorem sync_flag_alternates_across_rounds (N s : Nat) (hN : 2 ≤ N) (hs : s ≤ 1) :
    ∀ st1 : SyncState N, Reach (roundInit N s) st1 → Terminal st1 →
      st1.flag = s ^^^ 1
      ∧ st1.isIncFlag = st1.flag
      ∧ st1.count = 0
      ∧ nextRoundStart st1 = roundInit N (s ^^^ 1)
      ∧ (∀ st2 : SyncState N, Reach (nextRoundStart st1) st2 → Terminal st2 →
          st2.flag = s ∧ st2.flag ≠ st1.flag) := by
  intro st1 hr hterm
  have hinv := inv_reach hN hs hr
  have hall := terminal_all_done hs hinv hterm
  have i0 : Fin N := ⟨0, by omega⟩
  have hRel : Released st1 := hinv.pastSpin_rel i0 (Or.inr (hall i0))
  have hflag : st1.flag = s ^^^ 1 := hinv.flag_rel hRel
  have hsense : st1.isIncFlag = s ^^^ 1 := hinv.sense_done ⟨i0, hall i0⟩
  have hA : arrivedCount st1 = N := by
    unfold arrivedCount
    rw [Finset.filter_true_of_mem (fun j _ => by rw [hall j]; rfl),
      Finset.card_univ, Fintype.card_fin]
  have hcount : st1.count = 0 := by
    rw [hinv.count_eq, if_pos hA]
  have hnext : nextRoundStart st1 = roundInit N (s ^^^ 1) := by
    unfold nextRoundStart roundInit
    rw [hcount, hflag, hsense]
  have hs1 : s ^^^ 1 ≤ 1 := by
    rcases (by omega : s = 0 ∨ s = 1) with rfl | rfl <;> decide
  refine ⟨hflag, by rw [hflag, hsense], hcount, hnext, ?_⟩
  intro st2 hr2 hterm2
  rw [hnext] at hr2
  have hinv2 := inv_reach hN hs1 hr2
  have hall2 := terminal_all_done hs1 hinv2 hterm2
  have hRel2 : Released st2 := hinv2.pastSpin_rel i0 (Or.inr (hall2 i0))
  have hflag2 : st2.flag = (s ^^^ 1) ^^^ 1 := hinv2.flag_rel hRel2
  have hxor : (s ^^^ 1) ^^^ 1 = s := by
    rcases (by omega : s = 0 ∨ s = 1) with rfl | rfl <;> decide
  constructor
  · rw [hflag2, hxor]
  · rw [hflag2, hxor, hflag]
    rcases (by omega : s = 0 ∨ s = 1) with rfl | rfl <;> decide

theorem sync_flag_alternates_across_rounds_witness :
    2 ≤ 2 ∧ (0 : Nat) ≤ 1 ∧
    (∀ st1 : SyncState 2, Reach (roundInit 2 0) st1 → Terminal st1 →
      st1.flag = 0 ^^^ 1
      ∧ st1.isIncFlag = st1.flag
      ∧ st1.count = 0
      ∧ nextRoundStart st1 = roundInit 2 (0 ^^^ 1)
      ∧ (∀ st2 : SyncState 2, Reach (nextRoundStart st1) st2 → Terminal st2 →
          st2.flag = 0 ∧ st2.flag ≠ st1.flag)) :=
  ⟨by decide, by decide, sync_flag_alternates_across_rounds 2 0 (by decide) (by decide)⟩


/-- Claim C5: a `sync` call with `participantCount = 1` (i.e.
`blockNum == 1`) returns right after the intra-block synchronization:
every reachable state of the call leaves the shared counter, the flag,
and the private sense field of the `DeviceSyncer` exactly as they were
(and performs no flag write), and the call reaches `done`. -/
theorem sync_single_participant_frame (c f g : Nat) :
    (∀ st : SyncState 1, Reach (initState 1 c f g) st →
        st.count = c ∧ st.flag = f ∧ st.isIncFlag = g ∧ st.flagWriters = [])
    ∧ (∃ st : SyncState 1, Reach (initState 1 c f g) st ∧ Terminal st ∧
        ∀ i, (st.coords i).pc = .done) := by
  have key : ∀ st : SyncState 1, Reach (initState 1 c f g) st →
      st.count = c ∧ st.flag = f ∧ st.isIncFlag = g ∧ st.flagWriters = [] ∧
      ∀ i, (st.coords i).pc = .entry ∨ (st.coords i).pc = .done := by
    intro st h
    induction h with
    | refl => exact ⟨rfl, rfl, rfl, rfl, fun i => Or.inl rfl⟩
    | step i hr hstep ih =>
      obtain ⟨h1, h2, h3, h4, h5⟩ := ih
      rcases h5 i with hpc | hpc
      · simp only [stepCoord, hpc] at hstep
        rw [if_pos trivial] at hstep
        simp only [Option.some.injEq] at hstep
        subst hstep
        refine ⟨h1, h2, h3, h4, ?_⟩
        intro j
        by_cases hj : j = i
        · subst hj
          right
          simp
        · simp only [Function.update_noteq hj]
          exact h5 j
      · simp only [stepCoord, hpc] at hstep
        exact absurd hstep (by simp)
  refine ⟨fun st h => ⟨(key st h).1, (key st h).2.1, (key st h).2.2.1,
    (key st h).2.2.2.1⟩, ?_⟩
  refine ⟨{ count := c, flag := f, isIncFlag := g, flagWriters := [],
            coords := Function.update (fun _ => (⟨.entry, 0, false⟩ : Coord))
              ⟨0, Nat.zero_lt_one⟩ ⟨.done, 0, false⟩ }, ?_, ?_, ?_⟩
  · exact Reach.step ⟨0, Nat.zero_lt_one⟩ Reach.refl rfl
  · intro i
    have hv := i.isLt
    have hi : i = ⟨0, Nat.zero_lt_one⟩ := by
      apply Fin.ext
      omega
    subst hi
    rfl
  · intro i
    have hv := i.isLt
    have hi : i = ⟨0, Nat.zero_lt_one⟩ := by
      apply Fin.ext
      omega
    subst hi
    rfl


/-- Claim C2: the spin-wait faults exactly when the bound is enabled and
exhausted.  With `maxSpinCount ≥ 0` and a condition that never clears,
the wait faults after exactly `maxSpinCount` spin iterations (and with
any amount of fuel it either is still spinning or has faulted within the
bound — it never loops past the bound); with a negative `maxSpinCount`,
no fault is ever raised for any polled condition, and a never-clearing
condition spins forever without faulting. -/
theorem poll_bound_faults_iff_enabled (cond : Nat → Bool) (m mneg : Int)
    (hm : 0 ≤ m) (hneg : mneg < 0) (hstuck : ∀ k, cond k = true) :
    (pollMaybeJailbreak cond m 0 (m.toNat + 1) = .faulted m.toNat
      ∧ (m.toNat : Int) ≤ m)
    ∧ (∀ fuel, pollMaybeJailbreak cond m 0 fuel = .spinning
        ∨ pollMaybeJailbreak cond m 0 fuel = .faulted m.toNat)
    ∧ (∀ cond2 : Nat → Bool, ∀ fuel k j,
        pollMaybeJailbreak cond2 mneg k fuel ≠ .faulted j)
    ∧ (∀ fuel, pollMaybeJailbreak cond mneg 0 fuel = .spinning) := by
  refine ⟨⟨?_, ?_⟩, ?_, ?_, ?_⟩
  · exact poll_stuck_faults cond m hm hstuck m.toNat 0 (by omega)
  · omega
  · intro fuel
    exact poll_stuck_classify cond m hm hstuck fuel 0 (by omega)
  · intro cond2 fuel k j
    exact poll_neg_no_fault cond2 mneg hneg fuel k j
  · intro fuel
    exact poll_neg_spins cond mneg hneg hstuck fuel 0

theorem poll_bound_faults_iff_enabled_witness :
    (0 : Int) ≤ 2 ∧ (-1 : Int) < 0 ∧ (∀ k, (fun _ : Nat => true) k = true) ∧
    ((pollMaybeJailbreak (fun _ : Nat => true) 2 0 ((2 : Int).toNat + 1)
        = .faulted (2 : Int).toNat
      ∧ (((2 : Int).toNat : Int) ≤ 2))
    ∧ (∀ fuel, pollMaybeJailbreak (fun _ : Nat => true) 2 0 fuel = .spinning
        ∨ pollMaybeJailbreak (fun _ : Nat => true) 2 0 fuel = .faulted (2 : Int).toNat)
    ∧ (∀ cond2 : Nat → Bool, ∀ fuel k j,
        pollMaybeJailbreak cond2 (-1) k fuel ≠ .faulted j)
    ∧ (∀ fuel, pollMaybeJailbreak (fun _ : Nat => true) (-1) 0 fuel = .spinning)) :=
  ⟨by decide, by decide, fun _ => rfl,
    poll_bound_faults_iff_enabled (fun _ : Nat => true) 2 (-1) (by decide) (by decide)
      (fun _ => rfl)⟩

/-- Claim C9: calling `sync` without an explicit `maxSpinCount` uses the
default `int64_t maxSpinCount = 100000000`, which is nonnegative, so the
fail-fast bound is enabled by default: a wait whose condition never
clears faults (after the default number of iterations), and only an
explicitly negative argument gives the unbounded, never-faulting wait. -/
theorem sync_default_spin_bound (cond : Nat → Bool) (hstuck : ∀ k, cond k = true)
    (m : Int) (hm : m < 0) :
    syncDefaultMaxSpinCount = 100000000
    ∧ 0 ≤ syncDefaultMaxSpinCount
    ∧ pollMaybeJailbreak cond syncDefaultMaxSpinCount 0
        (syncDefaultMaxSpinCount.toNat + 1) = .faulted syncDefaultMaxSpinCount.toNat
    ∧ (∀ fuel k j, pollMaybeJailbreak cond m k fuel ≠ .faulted j) := by
  refine ⟨rfl, by decide, ?_, ?_⟩
  · exact poll_stuck_faults cond syncDefaultMaxSpinCount (by decide) hstuck
      syncDefaultMaxSpinCount.toNat 0 (by omega)
  · intro fuel k j
    exact poll_neg_no_fault cond m hm fuel k j

theorem sync_default_spin_bound_witness :
    (∀ k, (fun _ : Nat => true) k = true) ∧ (-7 : Int) < 0 ∧
    (syncDefaultMaxSpinCount = 100000000
    ∧ 0 ≤ syncDefaultMaxSpinCount
    ∧ pollMaybeJailbreak (fun _ : Nat => true) syncDefaultMaxSpinCount 0
        (syncDefaultMaxSpinCount.toNat + 1) = .faulted syncDefaultMaxSpinCount.toNat
    ∧ (∀ fuel k j, pollMaybeJailbreak (fun _ : Nat => true) (-7) k fuel ≠ .faulted j)) :=
  ⟨fun _ => rfl, by decide,
    sync_default_spin_bound (fun _ : Nat => true) (fun _ => rfl) (-7) (by decide)⟩

/-- Claim C6: the device-visible (`detail::cudaCalloc`) and host-visible
(`detail::cudaHostCalloc`) allocation helpers hand back memory whose
`nelem * sizeof(T)` units are all zero, whatever the allocator returned,
so a `DeviceSyncer` placed in such memory starts with `count_ = 0`,
`flag_ = 0` and `isIncFlag_ = 0` without explicit initialization. -/
theorem calloc_zero_fill (sizeofT nelem : Nat) (raw rawHost : Nat → Nat)
    (h : 1 ≤ nelem) :
    (∀ a, a < nelem * sizeofT → cudaCalloc sizeofT nelem raw a = 0)
    ∧ (∀ a, a < nelem * sizeofT → cudaHostCalloc sizeofT nelem rawHost a = 0)
    ∧ deviceSyncerAt (cudaCalloc deviceSyncerWords nelem raw) 0
        = ⟨0, 0, 0⟩
    ∧ deviceSyncerAt (cudaHostCalloc deviceSyncerWords nelem rawHost) 0
        = ⟨0, 0, 0⟩ := by
  have hW : deviceSyncerWords = 3 := rfl
  refine ⟨?_, ?_, ?_, ?_⟩
  · intro a ha
    unfold cudaCalloc cudaMemsetZero
    rw [if_pos ha]
  · intro a ha
    unfold cudaHostCalloc cudaMemsetZero
    rw [if_pos ha]
  · unfold deviceSyncerAt cudaCalloc cudaMemsetZero
    rw [hW]
    rw [if_pos (by omega : 0 < nelem * 3), if_pos (by omega : 0 + 1 < nelem * 3),
      if_pos (by omega : 0 + 2 < nelem * 3)]
  · unfold deviceSyncerAt cudaHostCalloc cudaMemsetZero
    rw [hW]
    rw [if_pos (by omega : 0 < nelem * 3), if_pos (by omega : 0 + 1 < nelem * 3),
      if_pos (by omega : 0 + 2 < nelem * 3)]

theorem calloc_zero_fill_witness :
    1 ≤ 1 ∧
    ((∀ a, a < 1 * 4 → cudaCalloc 4 1 (fun _ => 7) a = 0)
    ∧ (∀ a, a < 1 * 4 → cudaHostCalloc 4 1 (fun _ => 9) a = 0)
    ∧ deviceSyncerAt (cudaCalloc deviceSyncerWords 1 (fun _ => 7)) 0 = ⟨0, 0, 0⟩
    ∧ deviceSyncerAt (cudaHostCalloc deviceSyncerWords 1 (fun _ => 9)) 0
        = ⟨0, 0, 0⟩) :=
  ⟨by decide, calloc_zero_fill 4 1 (fun _ => 7) (fun _ => 9) (by decide)⟩

/-- Claim C7 (failing input): if `cudaMalloc` inside `detail::cudaCalloc`
succeeds and the subsequent `cudaMemsetAsync` fails, the error propagates
out of `detail::safeAlloc` with the block allocated by `cudaMalloc` still
live — the catch handler's `if (ptr) Deleter()(ptr);` never runs because
the assignment `ptr = alloc(nelem)` did not complete, so the partially
constructed resource is leaked, contrary to the claim. -/
theorem safeAlloc_leaks_on_memset_failure :
    safeAllocRun (some .memsetFail) ⟨0, []⟩
      = .error { nextPtr := 1, allocated := [0] }
    ∧ ({ nextPtr := 1, allocated := [0] } : AllocWorld).allocated ≠ []
    ∧ cudaFreeRun { nextPtr := 1, allocated := [0] } 0
      = { nextPtr := 1, allocated := [] } := by
  refine ⟨rfl, by decide, rfl⟩

/-- Claim C8: every allocation, copy and free helper runs its CUDA calls
inside an `AvoidCudaGraphCaptureGuard`: whatever the caller's capture
mode and whichever internal call fails, the caller's mode is restored
when the helper returns (normally or by exception), and every operation
the helper issued was issued under `cudaStreamCaptureModeRelaxed`, so it
is never recorded into a capture graph. -/
theorem capture_guard_wraps_all_ops (m0 : CaptureMode)
    (f1 f2 f3 g1 d1 d2 a1 c1 c2 : Bool) :
    ((cudaCallocTrace f1 f2 f3 ⟨m0, []⟩).2.mode = m0
      ∧ ∀ e ∈ (cudaCallocTrace f1 f2 f3 ⟨m0, []⟩).2.events,
          e.2 = CaptureMode.modeRelaxed)
    ∧ ((cudaHostCallocTrace g1 ⟨m0, []⟩).2.mode = m0
      ∧ ∀ e ∈ (cudaHostCallocTrace g1 ⟨m0, []⟩).2.events,
          e.2 = CaptureMode.modeRelaxed)
    ∧ ((cudaDeleterTrace d1 ⟨m0, []⟩).2.mode = m0
      ∧ ∀ e ∈ (cudaDeleterTrace d1 ⟨m0, []⟩).2.events,
          e.2 = CaptureMode.modeRelaxed)
    ∧ ((cudaHostDeleterTrace d2 ⟨m0, []⟩).2.mode = m0
      ∧ ∀ e ∈ (cudaHostDeleterTrace d2 ⟨m0, []⟩).2.events,
          e.2 = CaptureMode.modeRelaxed)
    ∧ ((memcpyCudaAsyncTrace a1 ⟨m0, []⟩).2.mode = m0
      ∧ ∀ e ∈ (memcpyCudaAsyncTrace a1 ⟨m0, []⟩).2.events,
          e.2 = CaptureMode.modeRelaxed)
    ∧ ((memcpyCudaTrace c1 c2 ⟨m0, []⟩).2.mode = m0
      ∧ ∀ e ∈ (memcpyCudaTrace c1 c2 ⟨m0, []⟩).2.events,
          e.2 = CaptureMode.modeRelaxed) := by
  refine ⟨⟨?_, ?_⟩, ⟨?_, ?_⟩, ⟨?_, ?_⟩, ⟨?_, ?_⟩, ⟨?_, ?_⟩, ⟨?_, ?_⟩⟩
  · cases f1 <;> cases f2 <;> cases f3 <;> rfl
  · cases f1 <;> cases f2 <;> cases f3 <;>
      simp [cudaCallocTrace, emit, guardEnter, guardExit]
  · cases g1 <;> rfl
  · cases g1 <;> simp [cudaHostCallocTrace, emit, guardEnter, guardExit]
  · cases d1 <;> rfl
  · cases d1 <;> simp [cudaDeleterTrace, emit, guardEnter, guardExit]
  · cases d2 <;> rfl
  · cases d2 <;> simp [cudaHostDeleterTrace, emit, guardEnter, guardExit]
  · cases a1 <;> rfl
  · cases a1 <;> simp [memcpyCudaAsyncTrace, emit, guardEnter, guardExit]
  · cases c1 <;> cases c2 <;> rfl
  · cases c1 <;> cases c2 <;> simp [memcpyCudaTrace, emit, guardEnter, guardExit]

/-- Claim C10: `DeviceSyncer() = default;` writes none of the object's
fields — construction is the identity on the underlying memory — so the
all-zero initial state required by the barrier is established only by
placing the object in zero-filled memory (as the allocation helpers
provide), not by the constructor itself. -/
theorem deviceSyncer_default_ctor_writes_nothing (raw : DeviceSyncerMem)
    (nelem : Nat) (h : 1 ≤ nelem) (rawMem : Nat → Nat) :
    deviceSyncerConstruct raw = raw
    ∧ deviceSyncerConstruct
        (deviceSyncerAt (cudaCalloc deviceSyncerWords nelem rawMem) 0)
      = ⟨0, 0, 0⟩ := by
  refine ⟨rfl, ?_⟩
  show deviceSyncerAt (cudaCalloc deviceSyncerWords nelem rawMem) 0 = ⟨0, 0, 0⟩
  have hW : deviceSyncerWords = 3 := rfl
  unfold deviceSyncerAt cudaCalloc cudaMemsetZero
  rw [hW]
  rw [if_pos (by omega : 0 < nelem * 3), if_pos (by omega : 0 + 1 < nelem * 3),
    if_pos (by omega : 0 + 2 < nelem * 3)]

theorem deviceSyncer_default_ctor_writes_nothing_witness :
    1 ≤ 1 ∧
    (deviceSyncerConstruct ⟨5, 6, 7⟩ = ⟨5, 6, 7⟩
    ∧ deviceSyncerConstruct
        (deviceSyncerAt (cudaCalloc deviceSyncerWords 1 (fun _ => 3)) 0)
      = ⟨0, 0, 0⟩) :=
  ⟨by decide, deviceSyncer_default_ctor_writes_nothing ⟨5, 6, 7⟩ 1 (by decide)
    (fun _ => 3)⟩

end Mscclpp
